import Mathlib

/-!
Shallow embedding of the data pipeline of `app.py` (pathology / family-history
exploration app), together with proofs about the specification claims.

Tables are modelled as lists of records in row order; pandas null cells are
modelled as `Option` fields.  The pipeline stages embedded here are the merge
of the two tables, the age derivation and plausibility filter, per-patient
deduplication, the pathology filter, the per-patient aggregation, the relation
classifier and the family-history parsing.
-/

/-- A row of the clinical-notes table (`structured_notes_anonymized.csv`):
patient identifier plus the columns used by the pipeline. -/
structure NoteRecord where
  subjectId : Nat
  mainPathology : Option String
  personalHistory : Option String
  familyHistory : Option String
deriving DecidableEq, Repr

/-- A row of the demographic table (`PATIENTS_anonymized.csv`), restricted to
the columns selected at the merge (`SUBJECT_ID, GENDER, DOB, DOD_HOSP`).
The `DOB` / `DOD_HOSP` columns are modelled by the year of the leniently
parsed date (`pd.to_datetime(..., errors="coerce")` on line 33-34): `none`
models an absent or unparseable date (NaT), `some y` a parsed date with year
`y`.  The pipeline reads dates only through `.year` and null tests, so the
year is the only date component that matters. -/
structure PatientRecord where
  subjectId : Nat
  gender : Option String
  dobYear : Option Int
  dodHospYear : Option Int
deriving DecidableEq, Repr

/-- A row of `merged_df` right after the left merge on line 30: the note
columns together with the joined demographic columns. -/
structure MergedRecord where
  subjectId : Nat
  mainPathology : Option String
  personalHistory : Option String
  familyHistory : Option String
  gender : Option String
  dobYear : Option Int
  dodHospYear : Option Int
deriving DecidableEq, Repr

/-- The merged row produced for note `n` when patient row `p` matches its
`SUBJECT_ID` in the left merge of line 30. -/
def mergeMatched (n : NoteRecord) (p : PatientRecord) : MergedRecord :=
  { subjectId := n.subjectId
    mainPathology := n.mainPathology
    personalHistory := n.personalHistory
    familyHistory := n.familyHistory
    gender := p.gender
    dobYear := p.dobYear
    dodHospYear := p.dodHospYear }

/-- The merged row produced for note `n` when no patient row matches: the
demographic columns are null (`how="left"` on line 30). -/
def mergeUnmatched (n : NoteRecord) : MergedRecord :=
  { subjectId := n.subjectId
    mainPathology := n.mainPathology
    personalHistory := n.personalHistory
    familyHistory := n.familyHistory
    gender := none
    dobYear := none
    dodHospYear := none }

/-- Line 30: `structured_notes.merge(patients[[...]], on="SUBJECT_ID",
how="left")`.  Left order is preserved; a note with several matching patient
rows is repeated once per match, in patient-table order; a note with no match
keeps null demographic fields. -/
def leftMerge (notes : List NoteRecord) (patients : List PatientRecord) :
    List MergedRecord :=
  notes.flatMap fun n =>
    if (patients.filter fun p => p.subjectId == n.subjectId).isEmpty then
      [mergeUnmatched n]
    else
      (patients.filter fun p => p.subjectId == n.subjectId).map (mergeMatched n)

/-- Line 37: the derived `AGE` column,
`(row["DOD_HOSP"].year - row["DOB"].year) if pd.notnull(row["DOD_HOSP"]) else None`.
When `DOD_HOSP` is null the cell is Python `None`; when `DOD_HOSP` is present
but `DOB` is NaT, `NaT.year` is NaN and the difference is NaN.  Both `None`
and NaN fail the numeric comparisons of line 40 and are dropped there, so the
embedding represents both by `none`. -/
def computedAGE (r : MergedRecord) : Option Int :=
  match r.dodHospYear, r.dobYear with
  | some d, some b => some (d - b)
  | _, _ => none

/-- Line 40: `merged_df[(merged_df["AGE"] >= 0) & (merged_df["AGE"] <= 100)]`.
A null (or NaN) `AGE` makes both comparisons false, so such rows are dropped
as well. -/
def ageFilter (rows : List MergedRecord) : List MergedRecord :=
  rows.filter fun r =>
    match computedAGE r with
    | some a => decide (0 ≤ a) && decide (a ≤ 100)
    | none => false

/-- Generic keep-first deduplication by a key, with an accumulator of already
seen keys.  `dedupByAux key l seen` drops every element whose key is in
`seen` or equals the key of an earlier kept element. -/
def dedupByAux {α β : Type} [DecidableEq β] (key : α → β) :
    List α → List β → List α
  | [], _ => []
  | a :: as, seen =>
    if key a ∈ seen then dedupByAux key as seen
    else a :: dedupByAux key as (key a :: seen)

/-- Line 43: `merged_df.drop_duplicates(subset=["SUBJECT_ID"])` — keep the
first row of each patient identifier. -/
def dropDuplicatesBySubject (rows : List MergedRecord) : List MergedRecord :=
  dedupByAux (fun r => r.subjectId) rows []

/-- The whole linking stage (lines 30-43): left merge, age plausibility
filter, per-patient deduplication.  This is the final value of `merged_df`. -/
def mergedPipeline (notes : List NoteRecord) (patients : List PatientRecord) :
    List MergedRecord :=
  dropDuplicatesBySubject (ageFilter (leftMerge notes patients))

section DedupLemmas

variable {α β : Type} [DecidableEq β] (key : α → β)

theorem dedupByAux_sublist : ∀ (l : List α) (seen : List β),
    (dedupByAux key l seen).Sublist l
  | [], _ => List.Sublist.refl _
  | a :: as, seen => by
    unfold dedupByAux
    split
    · exact (dedupByAux_sublist as seen).cons a
    · exact (dedupByAux_sublist as (key a :: seen)).cons₂ a

theorem filter_dedupByAux : ∀ (l : List α) (seen : List β) (k : β),
    (dedupByAux key l seen).filter (fun a => key a == k)
      = if k ∈ seen then [] else (l.filter (fun a => key a == k)).take 1
  | [], seen, k => by
    simp only [dedupByAux, List.filter_nil, List.take_nil]
    split <;> rfl
  | b :: bs, seen, k => by
    unfold dedupByAux
    by_cases hseen : key b ∈ seen
    · rw [if_pos hseen, filter_dedupByAux bs seen k, List.filter_cons]
      by_cases hk : k ∈ seen
      · rw [if_pos hk, if_pos hk]
      · rw [if_neg hk, if_neg hk]
        have hbk : (key b == k) = false := by
          simp only [beq_eq_false_iff_ne, ne_eq]
          rintro rfl
          exact hk hseen
        rw [hbk]
        simp
    · rw [if_neg hseen, List.filter_cons, List.filter_cons]
      by_cases hbk : key b = k
      · subst hbk
        have hk : key b ∉ seen := hseen
        rw [if_neg hk]
        simp only [beq_self_eq_true, if_true]
        rw [filter_dedupByAux bs (key b :: seen) (key b),
          if_pos (List.mem_cons_self _ _)]
        simp
      · have hb : (key b == k) = false := by
          simp only [beq_eq_false_iff_ne, ne_eq]; exact hbk
        rw [hb]
        simp only [Bool.false_eq_true, if_false]
        rw [filter_dedupByAux bs (key b :: seen) k]
        by_cases hk : k ∈ seen
        · rw [if_pos hk, if_pos (List.mem_cons_of_mem _ hk)]
        · rw [if_neg hk, if_neg (by
            intro h
            rcases List.mem_cons.1 h with h | h
            · exact hbk h.symm
            · exact hk h)]

end DedupLemmas

section DedupFirstLemmas

variable {α : Type} [DecidableEq α]

/-- For the identity key, keep-first deduplication preserves membership in
the list minus the already seen values. -/
theorem mem_dedupFirstAux : ∀ (l : List α) (seen : List α) (a : α),
    a ∈ dedupByAux id l seen ↔ a ∈ l ∧ a ∉ seen
  | [], seen, a => by simp [dedupByAux]
  | b :: bs, seen, a => by
    unfold dedupByAux
    by_cases hseen : (id b : α) ∈ seen
    · rw [if_pos hseen, mem_dedupFirstAux bs seen a]
      simp only [List.mem_cons, id_eq] at hseen ⊢
      constructor
      · exact fun ⟨h1, h2⟩ => ⟨Or.inr h1, h2⟩
      · rintro ⟨rfl | h1, h2⟩
        · exact absurd hseen h2
        · exact ⟨h1, h2⟩
    · rw [if_neg hseen]
      rw [List.mem_cons, mem_dedupFirstAux bs (id b :: seen) a]
      simp only [List.mem_cons, id_eq] at hseen ⊢
      constructor
      · rintro (rfl | ⟨h1, h2⟩)
        · exact ⟨Or.inl rfl, hseen⟩
        · exact ⟨Or.inr h1, fun hs => h2 (Or.inr hs)⟩
      · rintro ⟨rfl | h1, h2⟩
        · exact Or.inl rfl
        · by_cases hab : a = b
          · exact Or.inl hab
          · refine Or.inr ⟨h1, ?_⟩
            rintro (hs | hs)
            · exact hab hs
            · exact h2 hs

/-- Keep-first deduplication with identity key yields a duplicate-free list. -/
theorem nodup_dedupFirstAux : ∀ (l : List α) (seen : List α),
    (dedupByAux id l seen).Nodup
  | [], _ => List.nodup_nil
  | b :: bs, seen => by
    unfold dedupByAux
    by_cases hseen : (id b : α) ∈ seen
    · rw [if_pos hseen]
      exact nodup_dedupFirstAux bs seen
    · rw [if_neg hseen]
      refine List.Nodup.cons ?_ (nodup_dedupFirstAux bs (id b :: seen))
      intro hmem
      exact ((mem_dedupFirstAux bs (id b :: seen) b).1 hmem).2 (by simp)

/-- A list with at most one element satisfying `p` keeps its `p`-count under
keep-first deduplication. -/
theorem countP_dedupFirst (p : α → Bool) (l : List α)
    (h : l.countP p ≤ 1) : (dedupByAux id l []).countP p = l.countP p := by
  have hle : (dedupByAux id l []).countP p ≤ l.countP p :=
    (dedupByAux_sublist id l []).countP_le p
  rcases Nat.lt_or_ge (l.countP p) 1 with h0 | h1
  · interval_cases hc : l.countP p
    · exact Nat.le_antisymm (hc ▸ hle) (Nat.zero_le _)
  · have hone : l.countP p = 1 := Nat.le_antisymm h h1
    have hpos : 0 < l.countP p := by omega
    rcases List.countP_pos_iff.1 hpos with ⟨a, ha, hpa⟩
    have : a ∈ dedupByAux id l [] :=
      (mem_dedupFirstAux l [] a).2 ⟨ha, by simp⟩
    have hpos2 : 0 < (dedupByAux id l []).countP p :=
      List.countP_pos_iff.2 ⟨a, this, hpa⟩
    omega

end DedupFirstLemmas

section LinkerLemmas

/-- Every merged row comes from a note, either joined with a matching patient
row or with null demographic fields when no patient matches. -/
theorem mem_leftMerge_src {notes : List NoteRecord} {patients : List PatientRecord}
    {r : MergedRecord} (hr : r ∈ leftMerge notes patients) :
    ∃ n ∈ notes,
      (∃ p ∈ patients, p.subjectId = n.subjectId ∧ r = mergeMatched n p) ∨
        r = mergeUnmatched n := by
  rcases List.mem_flatMap.1 hr with ⟨n, hn, hm⟩
  refine ⟨n, hn, ?_⟩
  by_cases he : (patients.filter fun p => p.subjectId == n.subjectId).isEmpty
  · rw [if_pos he] at hm
    exact Or.inr (List.mem_singleton.1 hm)
  · rw [if_neg he] at hm
    rcases List.mem_map.1 hm with ⟨p, hp, heq⟩
    rcases List.mem_filter.1 hp with ⟨hp1, hp2⟩
    exact Or.inl ⟨p, hp1, by simpa using hp2, heq.symm⟩

/-- The deduplicated pipeline output is contained in the age-filtered merge. -/
theorem pipeline_subset_ageFilter {notes : List NoteRecord}
    {patients : List PatientRecord} {r : MergedRecord}
    (hr : r ∈ mergedPipeline notes patients) :
    r ∈ ageFilter (leftMerge notes patients) := by
  unfold mergedPipeline dropDuplicatesBySubject at hr
  exact (dedupByAux_sublist (fun r => r.subjectId)
    (ageFilter (leftMerge notes patients)) []).subset hr

/-- Rows surviving the age filter carry an in-range age value. -/
theorem mem_ageFilter_bounds {rows : List MergedRecord} {r : MergedRecord}
    (hr : r ∈ ageFilter rows) :
    ∃ a, computedAGE r = some a ∧ 0 ≤ a ∧ a ≤ 100 := by
  have hpred := (List.mem_filter.1 hr).2
  cases hca : computedAGE r with
  | none => rw [hca] at hpred; simp at hpred
  | some a =>
    rw [hca] at hpred
    simp only [Bool.and_eq_true, decide_eq_true_eq] at hpred
    exact ⟨a, rfl, hpred.1, hpred.2⟩

end LinkerLemmas

/-- Claim C3, counterexample: patient identifier 1 is present in the notes
table, yet zero (not exactly one) merged records survive linking, because the
only merged row for it has a null death date, hence a null derived age, and
the plausibility filter of line 40 drops it. -/
theorem c3_counterexample :
    (mergedPipeline [⟨1, some "Flu", some "history1", none⟩]
        [⟨1, some "M", some 1950, none⟩]).filter (fun r => r.subjectId == 1) = [] ∧
      ([⟨1, some "Flu", some "history1", none⟩] : List NoteRecord).any
        (fun n => n.subjectId == 1) = true := by
  decide

/-- Claim C3 (amended): after linking, the surviving records with a given
patient identifier are exactly the first row with that identifier — in input
order — among the merged rows that pass the age-plausibility filter.  Hence
at most one record survives per identifier; exactly one survives precisely
when at least one merged row with that identifier passes the age filter, and
the survivor is the first such row, but an identifier whose merged rows are
all dropped by the age filter has no surviving record at all. -/
theorem c3_amended (notes : List NoteRecord) (patients : List PatientRecord)
    (sid : Nat) :
    (mergedPipeline notes patients).filter (fun r => r.subjectId == sid)
      = ((ageFilter (leftMerge notes patients)).filter
          (fun r => r.subjectId == sid)).take 1 := by
  unfold mergedPipeline dropDuplicatesBySubject
  rw [filter_dedupByAux (fun r => r.subjectId)
    (ageFilter (leftMerge notes patients)) [] sid]
  rw [if_neg (List.not_mem_nil sid)]

/-- Claim C8: every record surviving the plausibility filter (and hence the
whole linking stage) has a derived AGE in the inclusive interval [0,100], and
every merged row whose AGE falls outside that interval is dropped by the
filter. -/
theorem c8_age_bounds (notes : List NoteRecord) (patients : List PatientRecord)
    (r : MergedRecord) :
    (r ∈ mergedPipeline notes patients →
      ∃ a, computedAGE r = some a ∧ 0 ≤ a ∧ a ≤ 100) ∧
    (∀ a, computedAGE r = some a → a < 0 ∨ 100 < a →
      r ∉ ageFilter (leftMerge notes patients)) := by
  constructor
  · intro hr
    exact mem_ageFilter_bounds (pipeline_subset_ageFilter hr)
  · intro a hca hout hr
    rcases mem_ageFilter_bounds hr with ⟨b, hcb, hb0, hb1⟩
    rw [hca] at hcb
    cases hcb
    omega

/-- Claim C8, witness: a patient dead at derived age 50 survives the pipeline
with an in-range age, and a merged row with derived age 150 is not in any age
filter output. -/
theorem c8_witness :
    (∃ a, computedAGE ⟨1, some "Flu", none, none, some "M", some 1950, some 2000⟩
        = some a ∧ 0 ≤ a ∧ a ≤ 100) ∧
      (⟨2, none, none, none, none, some 1800, some 1950⟩ : MergedRecord)
        ∉ ageFilter (leftMerge [] []) := by
  constructor
  · exact (c8_age_bounds [⟨1, some "Flu", none, none⟩]
      [⟨1, some "M", some 1950, some 2000⟩]
      ⟨1, some "Flu", none, none, some "M", some 1950, some 2000⟩).1 (by decide)
  · exact (c8_age_bounds [] []
      ⟨2, none, none, none, none, some 1800, some 1950⟩).2 150 (by decide)
      (by decide)

/-- Claim C9: the plausibility filter also drops every merged row whose
derived AGE is null, so every record in the linked output has a non-null AGE
and comes from a join with a patient row having a parseable birth date and a
present death date; consequently, for an identifier all of whose matching
patient rows lack a death date (in particular, one with no matching patient
row at all), no record with that identifier appears in the linked output or
any later stage. -/
theorem c9_nonnull_age (notes : List NoteRecord) (patients : List PatientRecord) :
    (∀ r ∈ mergedPipeline notes patients,
      (computedAGE r).isSome = true ∧
        ∃ p ∈ patients, p.subjectId = r.subjectId ∧
          p.dobYear.isSome = true ∧ p.dodHospYear.isSome = true) ∧
    (∀ sid : Nat, (∀ p ∈ patients, p.subjectId = sid → p.dodHospYear = none) →
      ∀ r ∈ mergedPipeline notes patients, r.subjectId ≠ sid) := by
  have main : ∀ r ∈ mergedPipeline notes patients,
      (computedAGE r).isSome = true ∧
        ∃ p ∈ patients, p.subjectId = r.subjectId ∧
          p.dobYear.isSome = true ∧ p.dodHospYear.isSome = true := by
    intro r hr
    have hage := mem_ageFilter_bounds (pipeline_subset_ageFilter hr)
    rcases hage with ⟨a, hca, _, _⟩
    have hsome : (computedAGE r).isSome = true := by rw [hca]; rfl
    refine ⟨hsome, ?_⟩
    have hmem : r ∈ leftMerge notes patients :=
      (List.filter_sublist _).subset (pipeline_subset_ageFilter hr)
    rcases mem_leftMerge_src hmem with ⟨n, _, hcase⟩
    rcases hcase with ⟨p, hp, hps, rfl⟩ | rfl
    · have hca' : (match p.dodHospYear, p.dobYear with
          | some d, some b => some (d - b)
          | _, _ => none) = some a := hca
      have hdd : p.dodHospYear.isSome = true ∧ p.dobYear.isSome = true := by
        cases hd : p.dodHospYear with
        | none => rw [hd] at hca'; cases hca'
        | some d =>
          cases hb : p.dobYear with
          | none => rw [hd, hb] at hca'; cases hca'
          | some b => exact ⟨rfl, rfl⟩
      exact ⟨p, hp, hps, hdd.2, hdd.1⟩
    · cases (show (none : Option Int) = some a from hca)
  refine ⟨main, ?_⟩
  intro sid hnull r hr heq
  rcases main r hr with ⟨_, p, hp, hps, _, hdod⟩
  have hnone := hnull p hp (by rw [hps, heq])
  rw [hnone] at hdod
  cases hdod

/-- Claim C9, witness: the surviving record of the concrete pipeline run has a
non-null age and a matching patient row with both dates present, and no record
of that run carries identifier 2, whose (absent) patient rows have no death
date. -/
theorem c9_witness :
    ((computedAGE ⟨1, some "Flu", none, none, some "M", some 1950, some 2000⟩).isSome
        = true ∧
      ∃ p ∈ ([⟨1, some "M", some 1950, some 2000⟩] : List PatientRecord),
        p.subjectId
            = (⟨1, some "Flu", none, none, some "M", some 1950, some 2000⟩ :
                MergedRecord).subjectId ∧
          p.dobYear.isSome = true ∧ p.dodHospYear.isSome = true) ∧
      (⟨1, some "Flu", none, none, some "M", some 1950, some 2000⟩ :
          MergedRecord).subjectId ≠ 2 := by
  constructor
  · exact (c9_nonnull_age [⟨1, some "Flu", none, none⟩]
      [⟨1, some "M", some 1950, some 2000⟩]).1
      ⟨1, some "Flu", none, none, some "M", some 1950, some 2000⟩ (by decide)
  · exact (c9_nonnull_age [⟨1, some "Flu", none, none⟩]
      [⟨1, some "M", some 1950, some 2000⟩]).2 2 (by decide)
      ⟨1, some "Flu", none, none, some "M", some 1950, some 2000⟩ (by decide)

section CharLemmas

theorem toNat_ofNat_valid (n : Nat) (h : n.isValidChar) :
    (Char.ofNat n).toNat = n := by
  rw [Char.ofNat, dif_pos h]
  rfl

theorem toLower_toNat (c : Char) :
    (Char.toLower c).toNat
      = if c.toNat ≥ 65 ∧ c.toNat ≤ 90 then c.toNat + 32 else c.toNat := by
  unfold Char.toLower
  split
  · rename_i h
    rw [if_pos h]
    exact toNat_ofNat_valid _ (Or.inl (by omega))
  · rename_i h
    rw [if_neg h]

theorem toLower_idem (c : Char) : c.toLower.toLower = c.toLower := by
  have h1 := toLower_toNat c
  have h2 := toLower_toNat c.toLower
  apply Char.ext
  apply UInt32.toNat.inj
  show c.toLower.toLower.toNat = c.toLower.toNat
  rw [h2, h1]
  by_cases h : c.toNat ≥ 65 ∧ c.toNat ≤ 90
  · rw [if_pos h, if_neg (by omega)]
  · rw [if_neg h, if_neg h]

theorem toLower_eq_dot_iff (c : Char) : c.toLower = '.' ↔ c = '.' := by
  constructor
  · intro h
    have h1 := toLower_toNat c
    rw [h] at h1
    have hdot : ('.' : Char).toNat = 46 := rfl
    rw [hdot] at h1
    by_cases hc : c.toNat ≥ 65 ∧ c.toNat ≤ 90
    · rw [if_pos hc] at h1; omega
    · rw [if_neg hc] at h1
      apply Char.ext
      apply UInt32.toNat.inj
      show c.toNat = ('.' : Char).toNat
      omega
  · intro h
    rw [h]
    rfl

end CharLemmas

/-- Python `str.lower()`: character-wise ASCII lowercasing, represented at
the character-list level of the string. -/
def lowerStr (s : String) : String := String.mk (s.data.map Char.toLower)

/-- One atom of a compiled search pattern.  `pandas.Series.str.contains`
(line 66) treats the query as a regular expression (the default
`regex=True`).  The embedding models the regex dialect on the subset of
patterns built from literal characters and the `.` wildcard; `patternOk`
states membership in that subset. -/
inductive RegexAtom where
  | dot
  | lit (c : Char)
deriving DecidableEq, Repr

/-- Compilation of one pattern character: `.` is the any-character wildcard,
every other (non-metacharacter) character matches literally. -/
def parseAtom (c : Char) : RegexAtom := if c = '.' then .dot else .lit c

/-- Compilation of a whole query string into a pattern. -/
def parsePattern (q : String) : List RegexAtom := q.data.map parseAtom

/-- Case-insensitive atom match (the `case=False` flag of line 66 compiles
the pattern with `re.IGNORECASE`); `.` matches any character but newline. -/
def atomMatchCI : RegexAtom → Char → Bool
  | .dot, c => c != '\n'
  | .lit a, c => a.toLower == c.toLower

/-- Anchored match of a pattern against a prefix of the character list. -/
def matchesAt : List RegexAtom → List Char → Bool
  | [], _ => true
  | _ :: _, [] => false
  | a :: as, c :: cs => atomMatchCI a c && matchesAt as cs

/-- `re.search` semantics: the pattern matches at some start position. -/
def regexSearchCI (pat : List RegexAtom) : List Char → Bool
  | [] => matchesAt pat []
  | c :: cs => matchesAt pat (c :: cs) || regexSearchCI pat cs

/-- The case-insensitive containment test performed by
`merged_df["MAIN_PATHOLOGY"].str.contains(search_word, case=False, na=False)`
on one cell value. -/
def strContainsCI (q s : String) : Bool := regexSearchCI (parsePattern q) s.data

/-- The modelled regex subset: queries containing no metacharacter other
than `.`. -/
def patternOk (q : String) : Bool :=
  q.data.all fun c =>
    !(['\\', '^', '$', '*', '+', '?', '\x7b', '\x7d', '[', ']', '(', ')',
      '|'].contains c)

/-- Line 66:
`merged_df[merged_df["MAIN_PATHOLOGY"].str.contains(search_word, case=False, na=False)] if search_word else merged_df.copy()`.
An empty query string is falsy, so the whole table is returned unchanged;
otherwise rows are kept when the pathology cell matches the query, and
`na=False` makes null pathology cells fail the predicate. -/
def filtered_df (searchWord : String) (df : List MergedRecord) :
    List MergedRecord :=
  if searchWord = "" then df
  else
    df.filter fun r =>
      match r.mainPathology with
      | some p => strContainsCI searchWord p
      | none => false

/-- Anchored check that the first list is a leading segment of the second. -/
def leadsWith : List Char → List Char → Bool
  | [], _ => true
  | _ :: _, [] => false
  | a :: as, b :: bs => a == b && leadsWith as bs

/-- Containment of `needle` as a contiguous segment of the second list. -/
def hasSub (needle : List Char) : List Char → Bool
  | [] => leadsWith needle []
  | c :: cs => leadsWith needle (c :: cs) || hasSub needle cs

/-- Python `needle in hay` substring containment on strings. -/
def pyIn (needle hay : String) : Bool := hasSub needle.data hay.data

/-- Modelled from the spec: the Filter Engine sentence "returns the subset of
MergedRecords whose pathology field case-insensitively contains the query"
read as literal substring containment, for comparison with the code's
regex-based predicate. -/
def containsLiteralCI (q s : String) : Bool := pyIn (lowerStr q) (lowerStr s)

section FilterEngineLemmas

/-- Two atom-wise equivalent pattern compilations match the same prefixes. -/
theorem matchesAt_map_eq (f g : Char → RegexAtom)
    (hfg : ∀ c, atomMatchCI (f c) = atomMatchCI (g c)) :
    ∀ (l : List Char) (s : List Char),
      matchesAt (l.map f) s = matchesAt (l.map g) s
  | [], _ => rfl
  | _ :: _, [] => rfl
  | c :: cs, d :: ds => by
    simp only [List.map_cons, matchesAt]
    rw [hfg c, matchesAt_map_eq f g hfg cs ds]

/-- Two atom-wise equivalent pattern compilations search identically. -/
theorem regexSearchCI_map_eq (f g : Char → RegexAtom)
    (hfg : ∀ c, atomMatchCI (f c) = atomMatchCI (g c)) :
    ∀ (l : List Char) (s : List Char),
      regexSearchCI (l.map f) s = regexSearchCI (l.map g) s
  | l, [] => matchesAt_map_eq f g hfg l []
  | l, d :: ds => by
    simp only [regexSearchCI]
    rw [matchesAt_map_eq f g hfg l (d :: ds),
      regexSearchCI_map_eq f g hfg l ds]

/-- Lowercasing a pattern character compiles to an atom with the same
case-insensitive match behaviour. -/
theorem atomMatchCI_parseAtom_toLower (c : Char) :
    atomMatchCI (parseAtom c.toLower) = atomMatchCI (parseAtom c) := by
  funext d
  unfold parseAtom
  by_cases h : c = '.'
  · subst h
    rfl
  · have h2 : c.toLower ≠ '.' := fun hl => h ((toLower_eq_dot_iff c).1 hl)
    rw [if_neg h, if_neg h2]
    simp only [atomMatchCI]
    rw [toLower_idem]

/-- The case-insensitive containment test is invariant under lowercasing the
query. -/
theorem strContainsCI_lowerStr (q s : String) :
    strContainsCI (lowerStr q) s = strContainsCI q s := by
  unfold strContainsCI parsePattern
  have hdata : (lowerStr q).data = q.data.map Char.toLower := rfl
  rw [hdata, List.map_map]
  exact regexSearchCI_map_eq _ _
    (fun c => atomMatchCI_parseAtom_toLower c) q.data s.data

/-- Lowercasing preserves emptiness of a string. -/
theorem lowerStr_eq_empty_iff (q : String) : lowerStr q = "" ↔ q = "" := by
  obtain ⟨l⟩ := q
  cases l with
  | nil => exact ⟨fun _ => rfl, fun _ => rfl⟩
  | cons c cs =>
    constructor
    · intro h
      exact absurd (congrArg String.data h) (by simp [lowerStr])
    · intro h
      exact absurd (congrArg String.data h) (by simp)

end FilterEngineLemmas

/-- Claim C1, counterexample: the query string `a.c` is interpreted as a
regular expression by `str.contains`, so the record with pathology `abc` is
returned even though `a.c` is not a literal substring of `abc` (case
insensitively), contradicting the literal-substring reading. -/
theorem c1_counterexample :
    filtered_df "a.c" [⟨1, some "abc", none, none, none, none, none⟩]
        = [⟨1, some "abc", none, none, none, none, none⟩] ∧
      containsLiteralCI "a.c" "abc" = false := by
  decide

/-- Claim C1 (amended): for every query built from literal characters and the
`.` wildcard (no other regex metacharacter): an empty query returns the
merged table unchanged; a non-empty query returns, in input order, exactly
the records whose non-null pathology matches the query interpreted as a
case-insensitive regular expression — literal substring containment only when
the query has no `.`; records with a null pathology are never included; and
lowercasing the query (hence any case variant of it) yields the identical
result list. -/
theorem c1_amended (q : String) (df : List MergedRecord)
    (hok : patternOk q = true) :
    filtered_df "" df = df ∧
      (filtered_df q df).Sublist df ∧
      (q ≠ "" → ∀ r, r ∈ filtered_df q df ↔
        r ∈ df ∧ ∃ p, r.mainPathology = some p ∧ strContainsCI q p = true) ∧
      (q ≠ "" → ∀ r ∈ filtered_df q df, r.mainPathology ≠ none) ∧
      filtered_df (lowerStr q) df = filtered_df q df := by
  refine ⟨rfl, ?_, ?_, ?_, ?_⟩
  · unfold filtered_df
    by_cases hq : q = ""
    · rw [if_pos hq]
    · rw [if_neg hq]
      exact List.filter_sublist df
  · intro hq r
    unfold filtered_df
    rw [if_neg hq, List.mem_filter]
    constructor
    · rintro ⟨h1, h2⟩
      refine ⟨h1, ?_⟩
      cases hp : r.mainPathology with
      | none => rw [hp] at h2; cases h2
      | some p =>
        rw [hp] at h2
        exact ⟨p, rfl, h2⟩
    · rintro ⟨h1, p, hp, hc⟩
      exact ⟨h1, by rw [hp]; exact hc⟩
  · intro hq r hr hnone
    unfold filtered_df at hr
    rw [if_neg hq, List.mem_filter, hnone] at hr
    cases hr.2
  · unfold filtered_df
    by_cases hq : q = ""
    · subst hq
      rfl
    · rw [if_neg hq, if_neg (fun h => hq ((lowerStr_eq_empty_iff q).1 h))]
      apply List.filter_congr
      intro r _
      cases r.mainPathology with
      | none => rfl
      | some p =>
        simp only
        rw [strContainsCI_lowerStr]

/-- Claim C1, witness: on a one-record table with pathology
`Diabetes Mellitus`, the empty query is the identity, the query `diabetes`
keeps the record through a case-insensitive match, excludes no-null
pathologies trivially, and `DIABETES` lowercased filters identically to
`DIABETES`. -/
theorem c1_witness :
    filtered_df "" [⟨1, some "Diabetes Mellitus", none, none, none, none, none⟩]
        = [⟨1, some "Diabetes Mellitus", none, none, none, none, none⟩] ∧
      (⟨1, some "Diabetes Mellitus", none, none, none, none, none⟩ ∈
          filtered_df "diabetes"
            [⟨1, some "Diabetes Mellitus", none, none, none, none, none⟩] ↔
        ⟨1, some "Diabetes Mellitus", none, none, none, none, none⟩ ∈
            ([⟨1, some "Diabetes Mellitus", none, none, none, none, none⟩] :
              List MergedRecord) ∧
          ∃ p, (⟨1, some "Diabetes Mellitus", none, none, none, none, none⟩ :
              MergedRecord).mainPathology = some p ∧
            strContainsCI "diabetes" p = true) ∧
      filtered_df (lowerStr "DIABETES")
          [⟨1, some "Diabetes Mellitus", none, none, none, none, none⟩]
        = filtered_df "DIABETES"
            [⟨1, some "Diabetes Mellitus", none, none, none, none, none⟩] := by
  refine ⟨?_, ?_, ?_⟩
  · exact (c1_amended "diabetes"
      [⟨1, some "Diabetes Mellitus", none, none, none, none, none⟩]
      (by decide)).1
  · exact (c1_amended "diabetes"
      [⟨1, some "Diabetes Mellitus", none, none, none, none, none⟩]
      (by decide)).2.2.1 (by decide)
      ⟨1, some "Diabetes Mellitus", none, none, none, none, none⟩
  · exact (c1_amended "DIABETES"
      [⟨1, some "Diabetes Mellitus", none, none, none, none, none⟩]
      (by decide)).2.2.2.2

/-- The Children keyword set of line 90. -/
def childKeywords : List String := ["daughter", "son", "children"]

/-- The Sibling keyword set of line 92. -/
def siblingKeywords : List String := ["brother", "sister", "sibling"]

/-- The Parent keyword set of line 94. -/
def parentKeywords : List String := ["father", "mother", "parent"]

/-- The exclusion keyword set of line 96, verbatim: it mixes plain markers
with the raw-string regular expression `no\b.*?\bhistory` (which is matched
here as a literal substring, not as a regex, because the code uses plain
`in`), and the entries `Unknown` and `Unremarkable` keep their capital
letters although they are only ever compared against a lowercased string. -/
def excludedKeywords : List String :=
  ["non contributory", "nc", "noncontributory", "no\\b.*?\\bhistory", "not",
    "Unknown", "Unremarkable"]

/-- Lines 79-98, `standardize_relation`: lowercase the raw relation, then
test the keyword sets by substring containment in priority order
Children, Sibling, Parent, Excluded; the first matching set decides, and
with no match at all the category is "Other relatives".  The excluded
sentinel (Python `None`) is modelled by `none`. -/
def standardize_relation (relation : String) : Option String :=
  if childKeywords.any (fun sub => pyIn sub (lowerStr relation)) then
    some "Children"
  else if siblingKeywords.any (fun sub => pyIn sub (lowerStr relation)) then
    some "Sibling"
  else if parentKeywords.any (fun sub => pyIn sub (lowerStr relation)) then
    some "Parent"
  else if excludedKeywords.any (fun sub => pyIn sub (lowerStr relation)) then
    none
  else
    some "Other relatives"

/-- Claim C5: the Relation Classifier evaluates the keyword sets by
case-insensitive substring match in the fixed priority order Children,
Sibling, Parent, Excluded, falling through to "Other relatives", and the
first matching set wins; in particular the crafted boundary string
"sister's father", containing both a Sibling and a Parent keyword, is
classified as Sibling. -/
theorem c5_priority (s : String) :
    (childKeywords.any (fun sub => pyIn sub (lowerStr s)) = true →
      standardize_relation s = some "Children") ∧
    (childKeywords.any (fun sub => pyIn sub (lowerStr s)) = false →
      siblingKeywords.any (fun sub => pyIn sub (lowerStr s)) = true →
      standardize_relation s = some "Sibling") ∧
    (childKeywords.any (fun sub => pyIn sub (lowerStr s)) = false →
      siblingKeywords.any (fun sub => pyIn sub (lowerStr s)) = false →
      parentKeywords.any (fun sub => pyIn sub (lowerStr s)) = true →
      standardize_relation s = some "Parent") ∧
    (childKeywords.any (fun sub => pyIn sub (lowerStr s)) = false →
      siblingKeywords.any (fun sub => pyIn sub (lowerStr s)) = false →
      parentKeywords.any (fun sub => pyIn sub (lowerStr s)) = false →
      excludedKeywords.any (fun sub => pyIn sub (lowerStr s)) = true →
      standardize_relation s = none) ∧
    (childKeywords.any (fun sub => pyIn sub (lowerStr s)) = false →
      siblingKeywords.any (fun sub => pyIn sub (lowerStr s)) = false →
      parentKeywords.any (fun sub => pyIn sub (lowerStr s)) = false →
      excludedKeywords.any (fun sub => pyIn sub (lowerStr s)) = false →
      standardize_relation s = some "Other relatives") ∧
    standardize_relation "sister\x27s father" = some "Sibling" := by
  refine ⟨?_, ?_, ?_, ?_, ?_, by decide⟩
  · intro h1
    unfold standardize_relation
    rw [if_pos h1]
  · intro h1 h2
    unfold standardize_relation
    rw [if_neg (by simp [h1]), if_pos h2]
  · intro h1 h2 h3
    unfold standardize_relation
    rw [if_neg (by simp [h1]), if_neg (by simp [h2]), if_pos h3]
  · intro h1 h2 h3 h4
    unfold standardize_relation
    rw [if_neg (by simp [h1]), if_neg (by simp [h2]), if_neg (by simp [h3]),
      if_pos h4]
  · intro h1 h2 h3 h4
    unfold standardize_relation
    rw [if_neg (by simp [h1]), if_neg (by simp [h2]), if_neg (by simp [h3]),
      if_neg (by simp [h4])]

/-- Claim C5, witness: one concrete classification through each branch of the
priority chain, in priority order. -/
theorem c5_witness :
    standardize_relation "daughter" = some "Children" ∧
      standardize_relation "twin sister" = some "Sibling" ∧
      standardize_relation "mother" = some "Parent" ∧
      standardize_relation "non contributory" = none ∧
      standardize_relation "cousin" = some "Other relatives" := by
  refine ⟨?_, ?_, ?_, ?_, ?_⟩
  · exact (c5_priority "daughter").1 (by decide)
  · exact (c5_priority "twin sister").2.1 (by decide) (by decide)
  · exact (c5_priority "mother").2.2.1 (by decide) (by decide) (by decide)
  · exact (c5_priority "non contributory").2.2.2.1 (by decide) (by decide)
      (by decide) (by decide)
  · exact (c5_priority "cousin").2.2.2.2.1 (by decide) (by decide) (by decide)
      (by decide)

/-- Claim C2: evaluation of the classifier at the three exclusion markers the
claim names.  `non contributory` and `nc` are mapped to the excluded
sentinel as claimed; but `unknown` (in any letter case) is mapped to
"Other relatives", because line 89 lowercases the relation while the keyword
on line 96 is spelled `Unknown` with a capital letter, so that keyword can
never match — the excluded sentinel is not produced and the category of
such strings does appear downstream. -/
theorem c2_exclusion_eval :
    standardize_relation "non contributory" = none ∧
      standardize_relation "nc" = none ∧
      standardize_relation "NC" = none ∧
      standardize_relation "unknown" = some "Other relatives" ∧
      standardize_relation "Unknown" = some "Other relatives" := by
  decide

/-- A Python value as produced by `ast.literal_eval` on the family-history
payloads: the modelled subset has strings, integers, lists and dicts — the
shapes the pipeline code distinguishes. -/
inductive PyVal where
  | str (s : String)
  | int (n : Int)
  | list (elems : List PyVal)
  | dict (entries : List (String × PyVal))

/-- Python string coercion helper: `some` exactly on string values. -/
def asString : PyVal → Option String
  | .str s => some s
  | _ => none

/-- Python `for x in v`: lists iterate over elements, dicts over their keys,
strings over their one-character substrings; integers are not iterable
(`TypeError`, modelled by `none`). -/
def pyIterate : PyVal → Option (List PyVal)
  | .list l => some l
  | .dict entries => some (entries.map fun kv => PyVal.str kv.1)
  | .str s => some (s.data.map fun c => PyVal.str (String.mk [c]))
  | .int _ => none

/-- Python `v[key]` with a string key: defined only on dicts that have the
key (`KeyError` on a dict without it, `TypeError` on non-dicts — both
modelled by `none`).  A dict literal with a repeated key keeps the last
binding, as in Python. -/
def pyGetItem (v : PyVal) (key : String) : Option PyVal :=
  match v with
  | .dict entries => ((entries.filter fun kv => kv.1 == key).getLast?).map
      (fun kv => kv.2)
  | _ => none

/-- Python `v.get(key, dflt)`: total on dicts, `AttributeError` (modelled by
`none`) on every other value. -/
def pyGet (v : PyVal) (key : String) (dflt : PyVal) : Option PyVal :=
  match v with
  | .dict entries =>
    some ((((entries.filter fun kv => kv.1 == key).getLast?).map
      (fun kv => kv.2)).getD dflt)
  | _ => none

/-- Whitespace skipping for the literal parser. -/
def skipWs : List Char → List Char
  | [] => []
  | c :: cs =>
    if c == ' ' || c == '\t' || c == '\n' || c == '\r' then skipWs cs
    else c :: cs

/-- Characters of a quoted string up to the closing quote; the modelled
subset has no escape sequences. -/
def parseStrAux (q : Char) : List Char → Option (List Char × List Char)
  | [] => none
  | c :: cs =>
    if c == q then some ([], cs)
    else
      match parseStrAux q cs with
      | some (s, rest) => some (c :: s, rest)
      | none => none

/-- Leading decimal digits of a character list, and the remainder. -/
def digitsAux : List Char → List Char × List Char
  | [] => ([], [])
  | c :: cs =>
    if c.isDigit then
      match digitsAux cs with
      | (ds, r) => (c :: ds, r)
    else ([], c :: cs)

/-- Value of a non-empty digit list. -/
def digitsToNat (ds : List Char) : Nat :=
  ds.foldl (fun n c => 10 * n + (c.toNat - 48)) 0

mutual

/-- Recursive-descent parser for the modelled subset of Python literals
(`ast.literal_eval` on line 105/114): single- or double-quoted strings
without escapes, integers, lists and dicts.  `fuel` bounds the recursion;
`literalEval` supplies enough of it for any input.  A payload outside the
subset fails to parse, which the callers treat exactly like a Python parse
error. -/
def parseVal : Nat → List Char → Option (PyVal × List Char)
  | 0, _ => none
  | Nat.succ fuel, cs =>
    match skipWs cs with
    | [] => none
    | c :: rest =>
      if c == '\x27' || c == '"' then
        match parseStrAux c rest with
        | some (s, r) => some (.str (String.mk s), r)
        | none => none
      else if c == '[' then parseElems fuel rest
      else if c == '\x7b' then parseEntries fuel rest
      else if c == '-' then
        match digitsAux rest with
        | ([], _) => none
        | (ds, r) => some (.int (-(digitsToNat ds : Int)), r)
      else if c.isDigit then
        match digitsAux (c :: rest) with
        | (ds, r) => some (.int (digitsToNat ds), r)
      else none

/-- Comma-separated list elements up to the closing bracket. -/
def parseElems : Nat → List Char → Option (PyVal × List Char)
  | 0, _ => none
  | Nat.succ fuel, cs =>
    match skipWs cs with
    | ']' :: rest => some (.list [], rest)
    | _ =>
      match parseVal fuel cs with
      | none => none
      | some (v, r) =>
        match skipWs r with
        | ',' :: r2 =>
          match parseElems fuel r2 with
          | some (.list vs, r3) => some (.list (v :: vs), r3)
          | _ => none
        | ']' :: r2 => some (.list [v], r2)
        | _ => none

/-- Comma-separated `key: value` dict entries up to the closing brace. -/
def parseEntries : Nat → List Char → Option (PyVal × List Char)
  | 0, _ => none
  | Nat.succ fuel, cs =>
    match skipWs cs with
    | '\x7d' :: rest => some (.dict [], rest)
    | _ =>
      match parseVal fuel cs with
      | none => none
      | some (k, r) =>
        match asString k with
        | none => none
        | some ks =>
          match skipWs r with
          | ':' :: r2 =>
            match parseVal fuel r2 with
            | none => none
            | some (v, r3) =>
              match skipWs r3 with
              | ',' :: r4 =>
                match parseEntries fuel r4 with
                | some (.dict kvs, r5) => some (.dict ((ks, v) :: kvs), r5)
                | _ => none
              | '\x7d' :: r4 => some (.dict [(ks, v)], r4)
              | _ => none
          | _ => none

end

/-- `ast.literal_eval` on a payload string: parse one value and require only
trailing whitespace after it; `none` models the exception raised on any
failure. -/
def literalEval (s : String) : Option PyVal :=
  match parseVal (2 * s.length + 2) s.data with
  | some (v, rest) => if (skipWs rest).isEmpty then some v else none
  | none => none

/-- Lines 104-106, the per-payload part of the `all_relations` collection:
`all_relations.update(standardize_relation(entry.get("relation", "")) for entry in family_list if ... is not None)`.
The generator is consumed entry by entry; categories yielded before an
exception (a non-dict entry, or a non-string relation value) stay collected,
since Python `set.update` adds elements as it iterates, and the exception is
then caught by the `except: continue` of line 107.  Entries whose category is
the excluded sentinel are filtered out by the `is not None` guard. -/
def relationsOfEntries : List PyVal → List String
  | [] => []
  | e :: rest =>
    match pyGet e "relation" (PyVal.str "") with
    | none => []
    | some rv =>
      match asString rv with
      | none => []
      | some rel =>
        match standardize_relation rel with
        | none => relationsOfEntries rest
        | some cat => cat :: relationsOfEntries rest

/-- Lines 103-108 for one payload cell: parse it and collect the non-excluded
categories of its entries; any failure contributes nothing. -/
def relationsOfPayload (payload : String) : List String :=
  match literalEval payload with
  | none => []
  | some v =>
    match pyIterate v with
    | none => []
    | some entries => relationsOfEntries entries

/-- Line 102-108, the selectable-relations collection over all payload
cells, as the keep-first deduplicated list of collected categories (the UI
then presents them sorted — irrelevant to the claims, which are
membership statements). -/
def allRelationCategories (payloads : List String) : List String :=
  dedupByAux id (payloads.flatMap relationsOfPayload) []

/-- Line 115, the comprehension
`[entry["condition"] for entry in family_list if standardize_relation(entry["relation"]) in selected_relations]`
with Python evaluation order: for each entry the guard reads
`entry["relation"]` (KeyError / TypeError on malformed entries), classifies
it (`AttributeError` on a non-string value), and only when the category is in
the selected list reads `entry["condition"]`.  `none` models an exception
escaping the comprehension, which discards the whole result. -/
def conditionsOfEntries (selected : List String) :
    List PyVal → Option (List PyVal)
  | [] => some []
  | e :: rest =>
    match pyGetItem e "relation" with
    | none => none
    | some rv =>
      match asString rv with
      | none => none
      | some rel =>
        match standardize_relation rel with
        | none => conditionsOfEntries selected rest
        | some cat =>
          if selected.contains cat then
            match pyGetItem e "condition" with
            | none => none
            | some cv =>
              match conditionsOfEntries selected rest with
              | none => none
              | some tl => some (cv :: tl)
          else conditionsOfEntries selected rest

/-- Lines 112-117, `filter_family_history`: parse the payload, run the
condition comprehension, and let the blanket `except: return []` turn every
exception — parse failure, non-iterable value, or any per-entry error — into
an empty result. -/
def filter_family_history (selected : List String) (history : String) :
    List PyVal :=
  match literalEval history with
  | none => []
  | some v =>
    match pyIterate v with
    | none => []
    | some entries => (conditionsOfEntries selected entries).getD []

/-- Dict check used to state the expected payload shape. -/
def isDict : PyVal → Bool
  | .dict _ => true
  | _ => false

/-- Decoding into the expected list-of-objects structure. -/
def isObjList : Option PyVal → Bool
  | some (.list l) => l.all isDict
  | _ => false

/-- A list containing a non-dict entry makes the condition comprehension
raise, whatever else it contains. -/
theorem conditionsOfEntries_none (selected : List String) :
    ∀ l : List PyVal, (∃ e ∈ l, isDict e = false) →
      conditionsOfEntries selected l = none
  | [], h => by simp at h
  | e :: rest, h => by
    rcases h with ⟨x, hx, hxd⟩
    rcases List.mem_cons.1 hx with rfl | hx
    · cases x with
      | dict d => cases hxd
      | str s => rfl
      | int n => rfl
      | list l2 => rfl
    · have IH := conditionsOfEntries_none selected rest ⟨x, hx, hxd⟩
      unfold conditionsOfEntries
      split
      · rfl
      · split
        · rfl
        · split
          · exact IH
          · split
            · split
              · rfl
              · rw [IH]
            · exact IH

/-- Claim C6: a payload that does not decode into a list of objects yields an
empty result from `filter_family_history`, and no exception reaches the
caller — the blanket `except` of line 116 converts the parse failure, the
non-iterable value, or the per-element subscript error into `return []`. -/
theorem c6_fail_soft (selected : List String) (payload : String)
    (hh : isObjList (literalEval payload) = false) :
    filter_family_history selected payload = [] := by
  unfold filter_family_history
  cases hv : literalEval payload with
  | none => rfl
  | some v =>
    rw [hv] at hh
    cases v with
    | int n => rfl
    | str s =>
      simp only [pyIterate]
      cases hs : s.data with
      | nil => rfl
      | cons c cs =>
        simp only [List.map_cons]
        rw [conditionsOfEntries_none selected _
          ⟨PyVal.str (String.mk [c]), List.mem_cons_self _ _, rfl⟩]
        rfl
    | dict d =>
      simp only [pyIterate]
      cases hd : d with
      | nil => rfl
      | cons kv kvs =>
        simp only [List.map_cons]
        rw [conditionsOfEntries_none selected _
          ⟨PyVal.str kv.1, List.mem_cons_self _ _, rfl⟩]
        rfl
    | list l =>
      simp only [isObjList] at hh
      simp only [pyIterate]
      have hex : ∃ e ∈ l, isDict e = false := by
        by_contra hcon
        push_neg at hcon
        have hall : l.all isDict = true :=
          List.all_eq_true.2 fun e he => by
            cases hb : isDict e with
            | true => rfl
            | false => exact absurd hb (hcon e he)
        rw [hall] at hh
        cases hh
      rw [conditionsOfEntries_none selected l hex]
      rfl

/-- Claim C6, witness: the unparsable payload of the spec example yields an
empty result. -/
theorem c6_witness : filter_family_history ["Parent"] "not a list" = [] :=
  c6_fail_soft ["Parent"] "not a list" (by decide)

/-- Claim C7: evaluation of `filter_family_history` at a payload mixing one
well-formed entry with one entry missing its `relation` key, with the Parent
category selected.  The code returns the empty list — `entry["relation"]`
raises `KeyError` on the malformed entry and the blanket `except` of line 116
discards the whole payload, including the condition `hypertension` already
collected from the well-formed entry — whereas the same payload without the
malformed entry does return `["hypertension"]`. -/
theorem c7_malformed_entry_eval :
    filter_family_history ["Parent"]
        "[\x7b\x27relation\x27: \x27mother\x27, \x27condition\x27: \x27hypertension\x27\x7d, \x7b\x27condition\x27: \x27x\x27\x7d]"
        = [] ∧
      filter_family_history ["Parent"]
          "[\x7b\x27relation\x27: \x27mother\x27, \x27condition\x27: \x27hypertension\x27\x7d]"
        = [PyVal.str "hypertension"] :=
  ⟨rfl, rfl⟩

/-- Claim C10: a relation string whose lowercase form contains `nc` as a bare
substring and matches no Children, Sibling or Parent keyword is classified as
the excluded sentinel (the `nc` marker of line 96 matches inside ordinary
words), so a history entry with such a relation contributes nothing to the
selectable-relations collection. -/
theorem c10_nc_substring (s : String)
    (h1 : pyIn "nc" (lowerStr s) = true)
    (h2 : childKeywords.any (fun sub => pyIn sub (lowerStr s)) = false)
    (h3 : siblingKeywords.any (fun sub => pyIn sub (lowerStr s)) = false)
    (h4 : parentKeywords.any (fun sub => pyIn sub (lowerStr s)) = false) :
    standardize_relation s = none ∧
      ∀ (c : PyVal) (entries : List PyVal),
        relationsOfEntries
            (PyVal.dict [("relation", PyVal.str s), ("condition", c)] :: entries)
          = relationsOfEntries entries := by
  have hstd : standardize_relation s = none := by
    unfold standardize_relation
    rw [if_neg (by simp [h2]), if_neg (by simp [h3]), if_neg (by simp [h4]),
      if_pos (List.any_eq_true.2 ⟨"nc", by simp [excludedKeywords], h1⟩)]
  refine ⟨hstd, ?_⟩
  intro c entries
  show (match standardize_relation s with
    | none => relationsOfEntries entries
    | some cat => cat :: relationsOfEntries entries) = relationsOfEntries entries
  rw [hstd]

/-- Claim C10, witness: `uncle` contains `nc`, matches no Children, Sibling
or Parent keyword, is classified as excluded, and an `uncle` history entry
leaves the collected relation categories unchanged. -/
theorem c10_witness :
    standardize_relation "uncle" = none ∧
      relationsOfEntries
          [PyVal.dict [("relation", PyVal.str "uncle"),
            ("condition", PyVal.str "cancer")]]
        = relationsOfEntries [] := by
  constructor
  · exact (c10_nc_substring "uncle" (by decide) (by decide) (by decide)
      (by decide)).1
  · exact (c10_nc_substring "uncle" (by decide) (by decide) (by decide)
      (by decide)).2 (PyVal.str "cancer") []

/-- A row of `aggregated_df` (lines 69-72): the four grouping columns plus
the two concatenated history columns. -/
structure AggregatedRecord where
  subjectId : Nat
  mainPathology : String
  gender : String
  age : Int
  personalHistory : String
  familyHistory : String
deriving DecidableEq, Repr

/-- The grouping key of line 69, `(SUBJECT_ID, MAIN_PATHOLOGY, GENDER, AGE)`.
pandas `groupby` keeps its default `dropna=True`, so a row with a null in any
grouping column belongs to no group at all and is silently dropped from the
aggregate; this is modelled by a `none` key. -/
def groupKey (r : MergedRecord) : Option (Nat × String × String × Int) :=
  match r.mainPathology, r.gender, computedAGE r with
  | some p, some g, some a => some (r.subjectId, p, g, a)
  | _, _, _ => none

/-- The aggregation lambda of lines 70-71:
`", ".join(x.dropna().astype(str))` over a column of one group, in group row
order. -/
def joinNonNull (xs : List (Option String)) : String :=
  String.intercalate ", " (xs.filterMap id)

/-- The aggregated row of one group key. -/
def mkAggregated (rows : List MergedRecord) (k : Nat × String × String × Int) :
    AggregatedRecord :=
  { subjectId := k.1
    mainPathology := k.2.1
    gender := k.2.2.1
    age := k.2.2.2
    personalHistory := joinNonNull
      ((rows.filter fun r => groupKey r == some k).map fun r => r.personalHistory)
    familyHistory := joinNonNull
      ((rows.filter fun r => groupKey r == some k).map fun r => r.familyHistory) }

/-- Lines 69-72: group the filtered rows by the four-column key, dropping
rows with a null key, and emit one aggregated row per group.  Groups are
emitted here in first-occurrence order; pandas sorts them by key, which only
permutes the output rows and is irrelevant to the multiplicity claims proved
below. -/
def aggregated_df (rows : List MergedRecord) : List AggregatedRecord :=
  (dedupByAux id (rows.filterMap groupKey) []).map (mkAggregated rows)

/-- A non-null group key starts with the row's patient identifier. -/
theorem groupKey_fst {r : MergedRecord} {k : Nat × String × String × Int}
    (h : groupKey r = some k) : k.1 = r.subjectId := by
  unfold groupKey at h
  split at h
  · cases h
    rfl
  · cases h

/-- Counting keys with a given identifier equals counting rows with that
identifier and a non-null key. -/
theorem countP_filterMap_groupKey (sid : Nat) :
    ∀ rows : List MergedRecord,
      (rows.filterMap groupKey).countP (fun k => k.1 == sid)
        = rows.countP (fun r => r.subjectId == sid && (groupKey r).isSome)
  | [] => rfl
  | r :: rs => by
    rw [List.filterMap_cons, List.countP_cons]
    cases hk : groupKey r with
    | none =>
      rw [countP_filterMap_groupKey sid rs]
      simp
    | some k =>
      rw [List.countP_cons, countP_filterMap_groupKey sid rs]
      have : k.1 = r.subjectId := groupKey_fst hk
      rw [this]
      simp

/-- Claim C4, counterexample: a filtered set holding one record for patient 1
whose pathology is null (possible under the empty query, which keeps null
pathologies) aggregates to an empty output — identifier 1 appears in the
filtered set but zero times, not exactly once, in the aggregated output,
because `groupby` drops rows with a null grouping key. -/
theorem c4_counterexample :
    aggregated_df [⟨1, none, some "h", none, some "M", some 1950, some 2000⟩]
        = [] ∧
      ([⟨1, none, some "h", none, some "M", some 1950, some 2000⟩] :
          List MergedRecord).countP (fun r => r.subjectId == 1) = 1 := by
  decide

/-- Claim C4 (amended): the Aggregator produces exactly one AggregatedRecord
per distinct non-null `(identifier, pathology, gender, age)` key — the output
keys are exactly the distinct row keys, without repetition — and, when the
filtered set has at most one record per patient identifier (as the
deduplicated pipeline guarantees), an identifier appears in the aggregated
output exactly as often as it appears in a filtered record with all four
grouping fields non-null: once when its record has a full key, zero times
when any grouping field of its record is null. -/
theorem c4_amended (rows : List MergedRecord) :
    ((aggregated_df rows).map
        fun a => (a.subjectId, a.mainPathology, a.gender, a.age))
        = dedupByAux id (rows.filterMap groupKey) [] ∧
      (dedupByAux id (rows.filterMap groupKey) []).Nodup ∧
      ∀ sid : Nat, rows.countP (fun r => r.subjectId == sid) ≤ 1 →
        (aggregated_df rows).countP (fun a => a.subjectId == sid)
          = rows.countP (fun r => r.subjectId == sid && (groupKey r).isSome) := by
  refine ⟨?_, nodup_dedupFirstAux _ _, ?_⟩
  · rw [aggregated_df, List.map_map]
    have hcomp : ((fun a : AggregatedRecord =>
        (a.subjectId, a.mainPathology, a.gender, a.age)) ∘ mkAggregated rows)
        = id := funext fun k => rfl
    rw [hcomp, List.map_id]
  · intro sid hsid
    rw [aggregated_df, List.countP_map]
    have hshow : ((fun a : AggregatedRecord => a.subjectId == sid) ∘
        mkAggregated rows) = fun k : Nat × String × String × Int =>
          k.1 == sid := funext fun k => rfl
    rw [hshow]
    have hle : (rows.filterMap groupKey).countP
        (fun k : Nat × String × String × Int => k.1 == sid) ≤ 1 := by
      rw [countP_filterMap_groupKey sid rows]
      refine le_trans (List.countP_mono_left ?_) hsid
      intro r _ hr
      simp only [Bool.and_eq_true] at hr
      exact hr.1
    rw [countP_dedupFirst _ _ hle, countP_filterMap_groupKey sid rows]

/-- Claim C4, witness: a one-record filtered set with a full grouping key
aggregates its identifier exactly once. -/
theorem c4_witness :
    (aggregated_df [⟨1, some "Flu", some "h", none, some "M", some 1950,
        some 2000⟩]).countP (fun a => a.subjectId == 1)
      = ([⟨1, some "Flu", some "h", none, some "M", some 1950, some 2000⟩] :
          List MergedRecord).countP
          (fun r => r.subjectId == 1 && (groupKey r).isSome) :=
  (c4_amended [⟨1, some "Flu", some "h", none, some "M", some 1950,
    some 2000⟩]).2.2 1 (by decide)
